import Mathlib

/-
  Verification of the grim screenshot tool (src/main.rs).

  The development shallowly embeds the capture-and-composite pipeline:
  geometry parsing, target-output selection, the per-frame capture state
  machine, BGR-to-RGBA pixel conversion, and the compositing / cropping
  arithmetic.  Machine integers are modelled as Nat / Int; the two
  explicit Rust casts that can wrap (u32 as i32, i32 as u32) are modelled
  by explicit wrap functions.  Fallible operations (Rust panics via
  unwrap / out-of-bounds indexing) are modelled with Option / Except.
-/

set_option maxRecDepth 10000

/-- Wrapping cast of a signed value to u32: models Rust release-mode
semantics of casting an i32 expression to u32 (two's complement bits
reinterpreted), which agrees with reduction modulo 2^32. -/
def u32wrap (i : Int) : Nat := (i % (2 ^ 32 : Int)).toNat

/-- Cast of a u32 value (a Nat below 2^32) to i32, as in Rust
expression gwidth as i32: values at or above 2^31 wrap to negatives. -/
def i32ofU32 (n : Nat) : Int := if n < 2 ^ 31 then (n : Int) else (n : Int) - 2 ^ 32

/-- Rust str::split with a one-character pattern: n separator occurrences
yield n+1 (possibly empty) parts.  Models geometry.split and the comma
and x splits in parse_geometry (src/main.rs lines 29, 34, 39). -/
def splitOnChar (c : Char) : List Char → List (List Char)
  | [] => [[]]
  | a :: rest =>
    match splitOnChar c rest with
    | [] => [[]]
    | h :: t => if a = c then [] :: h :: t else (a :: h) :: t

/-- Value of an ASCII decimal digit; none for any other character.
Models the per-character step of Rust str::parse number parsing. -/
def digitVal? (c : Char) : Option Nat :=
  if '0' ≤ c ∧ c ≤ '9' then some (c.toNat - 48) else none

/-- Accumulate decimal digits left to right; none on a non-digit. -/
def digitsAux (acc : Nat) : List Char → Option Nat
  | [] => some acc
  | c :: r =>
    match digitVal? c with
    | some d => digitsAux (acc * 10 + d) r
    | none => none

/-- Value of a nonempty all-digit string; none when empty or on any
non-digit character. -/
def parseDigits? (l : List Char) : Option Nat :=
  match l with
  | [] => none
  | _ => digitsAux 0 l

/-- Rust str::parse for u32 (src/main.rs lines 46-47): an optional
leading plus sign, then a nonempty digit run; range-checked.  The final
range test is equivalent to Rust's per-step checked arithmetic because
appending digits never decreases the value. -/
def parseU32 (l : List Char) : Option Nat :=
  match l with
  | '+' :: rest => (parseDigits? rest).bind (fun n => if n < 2 ^ 32 then some n else none)
  | _ => (parseDigits? l).bind (fun n => if n < 2 ^ 32 then some n else none)

/-- Rust str::parse for i32 (src/main.rs lines 44-45): optional sign,
nonempty digit run, range-checked. -/
def parseI32 (l : List Char) : Option Int :=
  match l with
  | '-' :: rest => (parseDigits? rest).bind (fun n => if n ≤ 2 ^ 31 then some (-(n : Int)) else none)
  | '+' :: rest => (parseDigits? rest).bind (fun n => if n < 2 ^ 31 then some (n : Int) else none)
  | _ => (parseDigits? l).bind (fun n => if n < 2 ^ 31 then some (n : Int) else none)

/-- parse_geometry (src/main.rs lines 28-50): split on one space into
exactly two parts, the first on one comma into signed x and y, the
second on one x character into unsigned width and height. -/
def parse_geometry (g : List Char) : Option (Int × Int × Nat × Nat) :=
  match splitOnChar ' ' g with
  | [p0, p1] =>
    match splitOnChar ',' p0 with
    | [c0, c1] =>
      match splitOnChar 'x' p1 with
      | [d0, d1] =>
        (parseI32 c0).bind fun x =>
        (parseI32 c1).bind fun y =>
        (parseU32 d0).bind fun w =>
        (parseU32 d1).bind fun h =>
        some (x, y, w, h)
      | _ => none
    | _ => none
  | _ => none

/-- One output's record (struct OutputInfo, src/main.rs lines 52-61),
restricted to the plain data the pipeline reads: logical position,
dimensions and integer scale, all i32. -/
structure OutputInfo where
  x : Int
  y : Int
  width : Int
  height : Int
  scale : Int
deriving DecidableEq, Repr

/-- The intersection filter predicate of the target_outputs computation
(src/main.rs lines 348-358): half-open overlap on both axes, with the
parsed u32 width and height cast to i32. -/
def overlapsRegion (gx gy : Int) (gw gh : Nat) (o : OutputInfo) : Bool :=
  let sw := i32ofU32 gw
  let sh := i32ofU32 gh
  gx < o.x + o.width && gx + sw > o.x && gy < o.y + o.height && gy + sh > o.y

/-- Target selection (src/main.rs lines 334-376): when a geometry flag
is present and parses, filter the outputs by overlap and record the crop
rectangle; then, if no target was selected, fall back to the first
discovered output.  Returns (target outputs, crop details). -/
def selectTargets (geometry : Option (List Char)) (outputs : List OutputInfo) :
    List OutputInfo × Option (Int × Int × Nat × Nat) :=
  let crop := geometry.bind parse_geometry
  let t0 :=
    match crop with
    | some (gx, gy, gw, gh) => outputs.filter (overlapsRegion gx gy gw gh)
    | none => []
  let t1 :=
    if t0.isEmpty then
      match outputs with
      | [] => []
      | o :: _ => [o]
    else t0
  (t1, crop)

/-- Pixel formats the capture path can store, a representative subset of
the wl_shm format enum of the external wayland protocol (the full table
has many more entries; only 32-bit single-plane formats matter here). -/
inductive WlShmFormat where
  | argb8888
  | xrgb8888
  | abgr8888
  | xbgr8888
  | rgba8888
  | rgbx8888
  | bgra8888
  | bgrx8888
deriving DecidableEq, Repr

/-- The wire-value-to-enum conversion performed by the external
wayland-client library in format.into_result() (used at src/main.rs
line 92): argb8888 and xrgb8888 have codes 0 and 1, the rest use their
drm fourcc codes.  A wire value outside the table yields none, on which
the code's unwrap panics. -/
def wlShmFormatOfWire (v : Nat) : Option WlShmFormat :=
  if v = 0 then some .argb8888
  else if v = 1 then some .xrgb8888
  else if v = 0x34324241 then some .abgr8888
  else if v = 0x34324258 then some .xbgr8888
  else if v = 0x34324152 then some .rgba8888
  else if v = 0x34325852 then some .rgbx8888
  else if v = 0x34324142 then some .bgra8888
  else if v = 0x34325842 then some .bgrx8888
  else none

/-- Modelled from the spec: the spec-side predicate for a known
4-byte-per-pixel BGR-ordered format, i.e. one whose in-memory byte order
is B, G, R followed by an alpha or padding byte (little-endian argb8888
or xrgb8888).  Used only to compare the spec's format contract with the
code's behaviour; it has no counterpart in src/main.rs. -/
def specIsBgr4ByteFormat : WlShmFormat → Bool
  | .argb8888 => true
  | .xrgb8888 => true
  | _ => false

/-- The bytes of one converted pixel (src/main.rs lines 410-414),
reading the source buffer with Rust's panicking indexing modelled as
Option: b, g, r are read from offsets 0, 1, 2 of the pixel and emitted
as r, g, b followed by a constant 255 alpha byte. -/
def pixelBytes? (buf : List Nat) (ps : Nat) : Option (List Nat) :=
  match buf[ps]?, buf[ps + 1]?, buf[ps + 2]? with
  | some b, some g, some r => some [r, g, b, 255]
  | _, _, _ => none

/-- Sequence a list of optional chunks, concatenating on success; none
as soon as any chunk is none.  Mirrors how a panic anywhere inside the
parallel flat_map aborts the whole conversion. -/
def seqJoin : List (Option (List Nat)) → Option (List Nat)
  | [] => some []
  | o :: rest =>
    match o with
    | none => none
    | some xs => (seqJoin rest).map (fun t => xs ++ t)

/-- One converted row (the body of the flat_map at src/main.rs lines
404-416): pixels x = 0 .. width-1 read at row_start + 4x. -/
def convertRowChecked (buf : List Nat) (stride width y : Nat) : Option (List Nat) :=
  seqJoin ((List.range width).map (fun x => pixelBytes? buf (y * stride + x * 4)))

/-- The tight_buf conversion (src/main.rs lines 402-418) with panicking
indexing modelled as Option: rows y = 0 .. height-1 concatenated in row
order (the par_iter merges results by row index, so the parallel run is
equivalent to this sequential description). -/
def tightBufChecked (buf : List Nat) (width height stride : Nat) : Option (List Nat) :=
  seqJoin ((List.range height).map (fun y => convertRowChecked buf stride width y))

/-- Total companion of pixelBytes?: out-of-range reads give 0. -/
def pixelBytes (buf : List Nat) (ps : Nat) : List Nat :=
  [buf.getD (ps + 2) 0, buf.getD (ps + 1) 0, buf.getD ps 0, 255]

/-- Total companion of convertRowChecked. -/
def convertRow (buf : List Nat) (stride width y : Nat) : List Nat :=
  (List.range width).flatMap (fun x => pixelBytes buf (y * stride + x * 4))

/-- Total companion of tightBufChecked; agrees with it whenever every
read is in bounds. -/
def tight_buf (buf : List Nat) (width height stride : Nat) : List Nat :=
  (List.range height).flatMap (fun y => convertRow buf stride width y)

/-- The conversion as guarded by the Buffer event's format unwrap
(src/main.rs line 92 feeding lines 402-418): an unknown wire format
panics there; any format the protocol enum knows is stored and the
conversion then runs without ever consulting it. -/
def captureAndConvert (wireFormat : Nat) (buf : List Nat) (width height stride : Nat) :
    Option (List Nat) :=
  (wlShmFormatOfWire wireFormat).bind (fun _ => tightBufChecked buf width height stride)

/-- Events of the screencopy frame object the dispatch handler matches
on (src/main.rs lines 85-122): the buffer-parameters event, the ready
and failed terminal events, and a catch-all for the ignored rest. -/
inductive CFrameEvent where
  | bufferEv (wireFormat width height stride : Nat)
  | readyEv
  | failedEv
  | otherEv
deriving DecidableEq, Repr

/-- The slice of AppState the per-frame capture loop uses (src/main.rs
lines 68-73).  buffer_file holds the size of the allocated temp file
(height * stride zero bytes) when a Buffer event arrived. -/
structure CaptureState where
  buffer_done : Bool
  buffer_file : Option Nat
  buffer_format : WlShmFormat
  buffer_width : Nat
  buffer_height : Nat
  buffer_stride : Nat
deriving DecidableEq, Repr

/-- The capture-loop state after lines 382-383 reset buffer_done and
buffer_file; the remaining fields keep whatever a previous iteration
left (initially the defaults of src/main.rs lines 305-308), but they are
only read when buffer_file is set, which a Buffer event always precedes. -/
def initCaptureState : CaptureState :=
  { buffer_done := false, buffer_file := none, buffer_format := .xrgb8888,
    buffer_width := 0, buffer_height := 0, buffer_stride := 0 }

/-- The Dispatch handler for frame events (src/main.rs lines 85-122):
Buffer stores format (panicking, hence none, on an unknown wire value)
and dimensions and allocates the height * stride file; Ready and Failed
both set buffer_done (Failed also logs); everything else is ignored. -/
def handleFrame (st : CaptureState) : CFrameEvent → Option CaptureState
  | .bufferEv f w h s =>
    match wlShmFormatOfWire f with
    | none => none
    | some fmt =>
      some { st with buffer_format := fmt, buffer_width := w, buffer_height := h,
                     buffer_stride := s, buffer_file := some (h * s) }
  | .readyEv => some { st with buffer_done := true }
  | .failedEv => some { st with buffer_done := true }
  | .otherEv => some st

/-- The blocking dispatch loop (src/main.rs lines 388-390): dispatch
events until buffer_done; none models a panic in a handler or the loop
hanging because no terminal event ever arrives. -/
def runCapture (st : CaptureState) : List CFrameEvent → Option CaptureState
  | [] => if st.buffer_done then some st else none
  | e :: rest =>
    if st.buffer_done then some st
    else (handleFrame st e).bind (fun st' => runCapture st' rest)

/-- A converted RGBA image: width, height in pixels and the raw bytes
in row-major RGBA order (image crate ImageBuffer over Rgba u8). -/
structure Img where
  width : Nat
  height : Nat
  data : List Nat
deriving DecidableEq, Repr

/-- Byte c of the pixel at column x, row y of an image. -/
def pixByte (img : Img) (x y c : Nat) : Nat :=
  img.data.getD (4 * (y * img.width + x) + c) 0

/-- Build a width-by-height image whose byte c of pixel (x, y) is
f x y c.  Used to model the external image-crate raster primitives. -/
def mkImg (w h : Nat) (f : Nat → Nat → Nat → Nat) : Img :=
  ⟨w, h, (List.range h).flatMap (fun y =>
    (List.range w).flatMap (fun x => (List.range 4).map (fun c => f x y c)))⟩

/-- ImageBuffer.new (src/main.rs line 464): zero-initialized canvas. -/
def blankImg (w h : Nat) : Img := mkImg w h (fun _ _ _ => 0)

/-- image imageops overlay (src/main.rs line 505) for fully opaque
sources: the source replaces the destination wherever it lands inside
the canvas, clipped at the canvas edges; pixels outside keep the
destination value.  All sources here carry alpha 255, for which the
crate's alpha blend reduces to replacement. -/
def overlayImg (dst src : Img) (ox oy : Int) : Img :=
  mkImg dst.width dst.height (fun x y c =>
    if ox ≤ (x : Int) ∧ (x : Int) < ox + src.width ∧ oy ≤ (y : Int) ∧ (y : Int) < oy + src.height
    then pixByte src ((x : Int) - ox).toNat ((y : Int) - oy).toNat c
    else pixByte dst x y c)

/-- sub_image followed by to_image (src/main.rs lines 521-522): the
w-by-h rectangle of img whose top-left corner is (cx, cy). -/
def subImg (img : Img) (cx cy w h : Nat) : Img :=
  mkImg w h (fun x y c => pixByte img (cx + x) (cy + y) c)

/-- Rounded rescaling of one dimension, (v * cs / s).round() computed on
f64 in src/main.rs lines 473-474, modelled as exact rational rounding
half away from zero for nonnegative operands. -/
def roundScale (v : Nat) (cs s : Int) : Nat :=
  if s ≤ 0 then 0 else (2 * v * cs.toNat + s.toNat) / (2 * s.toNat)

/-- Nearest-neighbour resampling (fast_image_resize with
ResizeAlg.Nearest, src/main.rs lines 478-499): destination pixel (x, y)
takes the source pixel at the proportionally scaled coordinates. -/
def resizeNearest (src : Img) (nw nh : Nat) : Img :=
  mkImg nw nh (fun x y c => pixByte src (x * src.width / nw) (y * src.height / nh) c)

/-- The scaled_buffer computation (src/main.rs lines 471-502): an image
whose output's native scale differs from the composite scale is
resampled; otherwise it is used as is (clone). -/
def scaledBuffer (cs : Int) (o : OutputInfo) (img : Img) : Img :=
  if o.scale ≠ cs then
    resizeNearest img (roundScale img.width cs o.scale) (roundScale img.height cs o.scale)
  else img

/-- Rust Iterator.min().unwrap_or(d) over a list of Int. -/
def minD (l : List Int) (d : Int) : Int :=
  match l with
  | [] => d
  | a :: r => r.foldl min a

/-- Rust Iterator.max().unwrap_or(d) over a list of Int. -/
def maxD (l : List Int) (d : Int) : Int :=
  match l with
  | [] => d
  | a :: r => r.foldl max a

/-- min_x over the target outputs' logical rectangles (src/main.rs
line 449). -/
def minXOf (ts : List OutputInfo) : Int := minD (ts.map (fun o => o.x)) 0

/-- min_y (src/main.rs line 450). -/
def minYOf (ts : List OutputInfo) : Int := minD (ts.map (fun o => o.y)) 0

/-- max_x over x + width (src/main.rs line 451). -/
def maxXOf (ts : List OutputInfo) : Int := maxD (ts.map (fun o => o.x + o.width)) 0

/-- max_y over y + height (src/main.rs line 452). -/
def maxYOf (ts : List OutputInfo) : Int := maxD (ts.map (fun o => o.y + o.height)) 0

/-- composite_scale = max scale over the target outputs (src/main.rs
line 455). -/
def compositeScaleOf (ts : List OutputInfo) : Int := maxD (ts.map (fun o => o.scale)) 1

/-- composite_width = ((max_x - min_x) * composite_scale) as u32
(src/main.rs line 457). -/
def canvasWOf (ts : List OutputInfo) : Nat :=
  u32wrap ((maxXOf ts - minXOf ts) * compositeScaleOf ts)

/-- composite_height (src/main.rs line 458). -/
def canvasHOf (ts : List OutputInfo) : Nat :=
  u32wrap ((maxYOf ts - minYOf ts) * compositeScaleOf ts)

/-- dest_x = (output.x - min_x) * composite_scale (src/main.rs
line 468). -/
def destXOf (ts : List OutputInfo) (o : OutputInfo) : Int :=
  (o.x - minXOf ts) * compositeScaleOf ts

/-- dest_y (src/main.rs line 469). -/
def destYOf (ts : List OutputInfo) (o : OutputInfo) : Int :=
  (o.y - minYOf ts) * compositeScaleOf ts

/-- The overlay loop (src/main.rs lines 466-506): each captured image,
rescaled if its scale differs from the composite scale, is overlaid on
the canvas at its destination offset, in capture order, so later images
win on overlap. -/
def compositeImg (ts : List OutputInfo) (captured : List (OutputInfo × Img)) : Img :=
  captured.foldl
    (fun acc oi =>
      overlayImg acc (scaledBuffer (compositeScaleOf ts) oi.1 oi.2)
        (destXOf ts oi.1) (destYOf ts oi.1))
    (blankImg (canvasWOf ts) (canvasHOf ts))

/-- The crop rectangle computation (src/main.rs lines 511-517):
offsets are i32 products cast to u32 (wrapping when negative), the
requested size is scaled in u32 arithmetic (hence the mod 2^32) and then
clamped by saturating subtraction against the canvas dimensions. -/
def cropRect (gx gy : Int) (gw gh : Nat) (minX minY cs : Int) (cw ch : Nat) :
    Nat × Nat × Nat × Nat :=
  let crop_x := u32wrap ((gx - minX) * cs)
  let crop_y := u32wrap ((gy - minY) * cs)
  let fw := min (gw * u32wrap cs % 2 ^ 32) (cw - crop_x)
  let fh := min (gh * u32wrap cs % 2 ^ 32) (ch - crop_y)
  (crop_x, crop_y, fw, fh)

/-- The image handed to the encoder (src/main.rs lines 441-526): the
single-output no-crop fast path returns the converted frame unchanged;
otherwise the composite canvas is assembled and, when a crop was
requested, its sub-rectangle extracted. -/
def renderImage (crop : Option (Int × Int × Nat × Nat)) (ts : List OutputInfo)
    (captured : List (OutputInfo × Img)) : Img :=
  match captured, crop with
  | [single], none => single.2
  | _, _ =>
    let comp := compositeImg ts captured
    match crop with
    | some (gx, gy, gw, gh) =>
      let r := cropRect gx gy gw gh (minXOf ts) (minYOf ts) (compositeScaleOf ts)
        (canvasWOf ts) (canvasHOf ts)
      subImg comp r.1 r.2.1 r.2.2.1 r.2.2.2
    | none => comp

/-- The failure modes of one run that the claims distinguish: the
no-output diagnostic, a panic inside the capture loop (unknown format
unwrap or out-of-bounds indexing), and the png encoder rejecting a
zero-dimension image, on which the save unwrap panics. -/
inductive GrimError where
  | noOutput
  | capturePanic
  | pngZeroWidth
  | pngZeroHeight
deriving DecidableEq, Repr

/-- save_as_png_fast (src/main.rs lines 274-287) at the boundary of the
external png encoder: the encoder's write_header rejects images with a
zero width or height, and the caller unwraps the result, so a
zero-dimension image is a hard error and never a written raster. -/
def encodePng (img : Img) : Except GrimError Unit :=
  if img.width = 0 then .error .pngZeroWidth
  else if img.height = 0 then .error .pngZeroHeight
  else .ok ()

/-- Rendering followed by the png save with its unwrap (src/main.rs
lines 441-526): produces the encoded image or the panic the save
unwrap raises. -/
def runSave (crop : Option (Int × Int × Nat × Nat)) (ts : List OutputInfo)
    (captured : List (OutputInfo × Img)) : Except GrimError Img :=
  let img := renderImage crop ts captured
  match encodePng img with
  | .error e => .error e
  | .ok _ => .ok img

/-- One output's capture (src/main.rs lines 381-428): run the dispatch
loop from the reset state over the events the compositor delivers; if a
Buffer event left a file behind, read its contents (the content
argument: what read_to_end returns at line 399, all zeros when the copy
never completed) and convert.  some none means the output contributed
no frame; none models a panic. -/
def captureOne (events : List CFrameEvent) (content : List Nat) : Option (Option Img) :=
  (runCapture initCaptureState events).bind (fun st =>
    match st.buffer_file with
    | none => some none
    | some _ =>
      (tightBufChecked content st.buffer_width st.buffer_height st.buffer_stride).map
        (fun tb => some ⟨st.buffer_width, st.buffer_height, tb⟩))

/-- The sequential per-output capture loop (src/main.rs lines 381-429):
captures run one at a time; an output that produced no file is skipped
and the loop continues with the remaining outputs. -/
def captureAll (targets : List OutputInfo) (events : OutputInfo → List CFrameEvent)
    (content : OutputInfo → List Nat) : Option (List (OutputInfo × Img)) :=
  match targets with
  | [] => some []
  | o :: rest =>
    (captureOne (events o) (content o)).bind (fun res =>
      (captureAll rest events content).map (fun tail =>
        match res with
        | none => tail
        | some img => (o, img) :: tail))

/-- The whole run after discovery (src/main.rs lines 334-532),
parameterized by the per-output event sequences and buffer contents the
compositor supplies: select targets, capture each, and render and save
unless nothing was captured (an entirely failed capture set exits
silently with no image, modelled as ok none). -/
def runGrim (geometry : Option (List Char)) (outputs : List OutputInfo)
    (events : OutputInfo → List CFrameEvent) (content : OutputInfo → List Nat) :
    Except GrimError (Option Img) :=
  let sel := selectTargets geometry outputs
  if sel.1.isEmpty then .error .noOutput
  else
    match captureAll sel.1 events content with
    | none => .error .capturePanic
    | some captured =>
      if captured.isEmpty then .ok none
      else
        match runSave sel.2 sel.1 captured with
        | .error e => .error e
        | .ok img => .ok (some img)

/-- The version argument passed to registry.bind for each recognized
global interface in the registry dispatch handler (src/main.rs lines
245-269): the screencopy manager is bound at the constant 3, the xdg
output manager at min(advertised, 3), wl_output at min(advertised, 4)
and wl_shm at the constant 1; unrecognized interfaces are not bound. -/
def boundVersion (interface : String) (advertised : Nat) : Option Nat :=
  if interface = "zwlr_screencopy_manager_v1" then some 3
  else if interface = "zxdg_output_manager_v1" then some (min advertised 3)
  else if interface = "wl_output" then some (min advertised 4)
  else if interface = "wl_shm" then some 1
  else none

theorem flatMapRangeLen {α : Type} (f : Nat → List α) (L : Nat) (hL : ∀ i, (f i).length = L) :
    ∀ n, ((List.range n).flatMap f).length = n * L := by
  intro n
  induction n with
  | zero => simp
  | succ m ih =>
    rw [List.range_succ, List.flatMap_append, List.length_append, ih]
    simp [hL m, Nat.succ_mul]

theorem flatMapRangeGet {α : Type} (f : Nat → List α) (L : Nat) (hL : ∀ i, (f i).length = L)
    (n x c : Nat) (hx : x < n) (hc : c < L) :
    ((List.range n).flatMap f)[L * x + c]? = (f x)[c]? := by
  induction n with
  | zero => omega
  | succ m ih =>
    rw [List.range_succ, List.flatMap_append]
    rcases Nat.lt_or_ge x m with hxm | hxm
    · have h3 : L * x + c < (x + 1) * L := by
        have e : (x + 1) * L = L * x + L := by ring
        rw [e]
        exact Nat.add_lt_add_left hc (L * x)
      have h2 : (x + 1) * L ≤ m * L := Nat.mul_le_mul_right L (Nat.succ_le_of_lt hxm)
      have hlt : L * x + c < ((List.range m).flatMap f).length := by
        rw [flatMapRangeLen f L hL m]
        exact lt_of_lt_of_le h3 h2
      rw [List.getElem?_append_left hlt, ih hxm]
    · have hxe : x = m := by omega
      subst hxe
      have hlen : ((List.range x).flatMap f).length = L * x := by
        rw [flatMapRangeLen f L hL x, Nat.mul_comm]
      rw [List.getElem?_append_right (by rw [hlen]; exact Nat.le_add_right _ c), hlen,
        Nat.add_sub_cancel_left]
      simp

theorem flatMapRangeCongr {α : Type} (f g : Nat → List α) (n : Nat)
    (h : ∀ i, i < n → f i = g i) :
    (List.range n).flatMap f = (List.range n).flatMap g := by
  induction n with
  | zero => simp
  | succ m ih =>
    rw [List.range_succ, List.flatMap_append, List.flatMap_append,
      ih (fun i hi => h i (by omega))]
    simp [h m (by omega)]

theorem seqJoinMapSome {β : Type} (g : β → List Nat) :
    ∀ (l : List β) (f : β → Option (List Nat)), (∀ a ∈ l, f a = some (g a)) →
    seqJoin (l.map f) = some (l.flatMap g) := by
  intro l
  induction l with
  | nil => intro f _; rfl
  | cons a r ih =>
    intro f h
    have ha : f a = some (g a) := h a (by simp)
    have hr := ih f (fun b hb => h b (by simp [hb]))
    simp [seqJoin, ha, hr]

theorem getSomeGetD (l : List Nat) (i : Nat) (h : i < l.length) :
    l[i]? = some (l.getD i 0) := by
  simp [List.getElem?_eq_getElem h]

theorem foldlMinLeInit (l : List Int) (b : Int) : List.foldl min b l ≤ b := by
  induction l generalizing b with
  | nil => simp
  | cons a r ih =>
    calc List.foldl min (min b a) r ≤ min b a := ih (min b a)
      _ ≤ b := min_le_left b a

theorem foldlMinLeMem (l : List Int) : ∀ (b a : Int), a ∈ l → List.foldl min b l ≤ a := by
  induction l with
  | nil => intro b a ha; cases ha
  | cons x r ih =>
    intro b a ha
    rcases List.mem_cons.mp ha with h | h
    · rw [List.foldl_cons]
      calc List.foldl min (min b x) r ≤ min b x := foldlMinLeInit r (min b x)
        _ ≤ a := by rw [h]; exact min_le_right b x
    · exact ih (min b x) a h

theorem foldlMinMem (l : List Int) (b : Int) :
    List.foldl min b l = b ∨ List.foldl min b l ∈ l := by
  induction l generalizing b with
  | nil => left; rfl
  | cons a r ih =>
    rcases ih (min b a) with h | h
    · rcases min_cases b a with ⟨he, _⟩ | ⟨he, _⟩
      · left; rw [List.foldl_cons, h, he]
      · right; rw [List.foldl_cons, h, he]; simp
    · right; simp [h]

theorem foldlMaxGeInit (l : List Int) (b : Int) : b ≤ List.foldl max b l := by
  induction l generalizing b with
  | nil => simp
  | cons a r ih =>
    calc b ≤ max b a := le_max_left b a
      _ ≤ List.foldl max (max b a) r := ih (max b a)

theorem foldlMaxGeMem (l : List Int) : ∀ (b a : Int), a ∈ l → a ≤ List.foldl max b l := by
  induction l with
  | nil => intro b a ha; cases ha
  | cons x r ih =>
    intro b a ha
    rcases List.mem_cons.mp ha with h | h
    · rw [List.foldl_cons]
      calc a ≤ max b x := by rw [h]; exact le_max_right b x
        _ ≤ List.foldl max (max b x) r := foldlMaxGeInit r (max b x)
    · exact ih (max b x) a h

theorem foldlMaxMem (l : List Int) (b : Int) :
    List.foldl max b l = b ∨ List.foldl max b l ∈ l := by
  induction l generalizing b with
  | nil => left; rfl
  | cons a r ih =>
    rcases ih (max b a) with h | h
    · rcases max_cases b a with ⟨he, _⟩ | ⟨he, _⟩
      · left; rw [List.foldl_cons, h, he]
      · right; rw [List.foldl_cons, h, he]; simp
    · right; simp [h]

theorem convIndexLt (w h s y x k : Nat) (hs : 4 * w ≤ s) (hy : y < h) (hx : x < w)
    (hk : k < 3) : y * s + x * 4 + k < h * s := by
  have h1 : x * 4 + k < s := by omega
  have h2 : (y + 1) * s ≤ h * s := Nat.mul_le_mul_right s hy
  calc y * s + x * 4 + k < y * s + s := by omega
    _ = (y + 1) * s := by ring
    _ ≤ h * s := h2

theorem tightBufCheckedEq (buf : List Nat) (w h s : Nat) (hs : 4 * w ≤ s)
    (hlen : h * s ≤ buf.length) :
    tightBufChecked buf w h s = some (tight_buf buf w h s) := by
  unfold tightBufChecked tight_buf
  apply seqJoinMapSome (fun y => convertRow buf s w y) (List.range h)
  intro y hy
  have hy' : y < h := List.mem_range.mp hy
  unfold convertRowChecked convertRow
  apply seqJoinMapSome (fun x => pixelBytes buf (y * s + x * 4)) (List.range w)
  intro x hx
  have hx' : x < w := List.mem_range.mp hx
  have i0 : y * s + x * 4 < buf.length := by
    have := convIndexLt w h s y x 0 hs hy' hx' (by omega)
    omega
  have i1 : y * s + x * 4 + 1 < buf.length := by
    have := convIndexLt w h s y x 1 hs hy' hx' (by omega)
    omega
  have i2 : y * s + x * 4 + 2 < buf.length := by
    have := convIndexLt w h s y x 2 hs hy' hx' (by omega)
    omega
  have e0 := getSomeGetD buf (y * s + x * 4) i0
  have e1 := getSomeGetD buf (y * s + x * 4 + 1) i1
  have e2 := getSomeGetD buf (y * s + x * 4 + 2) i2
  simp only [pixelBytes?, pixelBytes, e0, e1, e2]

theorem convertRowLen (buf : List Nat) (s w y : Nat) : (convertRow buf s w y).length = w * 4 := by
  unfold convertRow
  exact flatMapRangeLen (fun x => pixelBytes buf (y * s + x * 4)) 4 (fun _ => rfl) w

theorem tightBufLen (buf : List Nat) (w h s : Nat) :
    (tight_buf buf w h s).length = w * h * 4 := by
  unfold tight_buf
  rw [flatMapRangeLen (fun y => convertRow buf s w y) (w * 4)
    (fun i => convertRowLen buf s w i) h]
  ring

theorem tightBufGet (buf : List Nat) (w h s y x c : Nat) (hy : y < h) (hx : x < w)
    (hc : c < 4) :
    (tight_buf buf w h s)[4 * (y * w + x) + c]? = (pixelBytes buf (y * s + x * 4))[c]? := by
  unfold tight_buf
  have e : 4 * (y * w + x) + c = (w * 4) * y + (x * 4 + c) := by ring
  rw [e, flatMapRangeGet (fun y => convertRow buf s w y) (w * 4)
    (fun i => convertRowLen buf s w i) h y (x * 4 + c) hy (by omega)]
  unfold convertRow
  rw [show x * 4 + c = 4 * x + c from by ring]
  exact flatMapRangeGet (fun x2 => pixelBytes buf (y * s + x2 * 4)) 4 (fun _ => rfl) w x c hx hc

/-- Claim C10: for a frame with stride at least width * 4 backed by a buffer
of at least height * stride bytes, every byte index the row conversion reads
(y * stride + 4x + k for y below height, x below width, k in 0..2) lies
strictly below height * stride, and the conversion with panicking indexing
succeeds and equals its total description. -/
theorem c10_conversion_in_bounds (buf : List Nat) (w h s : Nat) (hs : w * 4 ≤ s)
    (hlen : h * s ≤ buf.length) :
    (∀ y x k, y < h → x < w → k < 3 → y * s + 4 * x + k < h * s) ∧
    tightBufChecked buf w h s = some (tight_buf buf w h s) := by
  constructor
  · intro y x k hy hx hk
    have := convIndexLt w h s y x k (by omega) hy hx hk
    omega
  · exact tightBufCheckedEq buf w h s (by omega) hlen

/-- Witness for C10 at a concrete 1-by-2 frame with stride 4. -/
theorem c10_conversion_in_bounds_witness :
    (∀ y x k, y < 2 → x < 1 → k < 3 → y * 4 + 4 * x + k < 2 * 4) ∧
    tightBufChecked (List.replicate 8 7) 1 2 4 =
      some (tight_buf (List.replicate 8 7) 1 2 4) :=
  c10_conversion_in_bounds (List.replicate 8 7) 1 2 4 (by decide) (by decide)

/-- Claim C1: the conversion yields exactly width * height * 4 bytes in
row-major order, the pixel at row y, column x being the source bytes at
offsets y * stride + 4x + 2, + 1, + 0 with a constant 255 alpha, and two
source buffers agreeing on the first width * 4 bytes of every row (hence
differing at most in the stride padding) convert identically. -/
theorem c1_pixel_conversion (buf : List Nat) (w h s y x : Nat) (hy : y < h) (hx : x < w) :
    (tight_buf buf w h s).length = w * h * 4 ∧
    (tight_buf buf w h s)[4 * (y * w + x)]? = some (buf.getD (y * s + 4 * x + 2) 0) ∧
    (tight_buf buf w h s)[4 * (y * w + x) + 1]? = some (buf.getD (y * s + 4 * x + 1) 0) ∧
    (tight_buf buf w h s)[4 * (y * w + x) + 2]? = some (buf.getD (y * s + 4 * x) 0) ∧
    (tight_buf buf w h s)[4 * (y * w + x) + 3]? = some 255 ∧
    ∀ buf2 : List Nat,
      (∀ y2 j, y2 < h → j < w * 4 → buf.getD (y2 * s + j) 0 = buf2.getD (y2 * s + j) 0) →
      tight_buf buf w h s = tight_buf buf2 w h s := by
  have g0 := tightBufGet buf w h s y x 0 hy hx (by omega)
  have g1 := tightBufGet buf w h s y x 1 hy hx (by omega)
  have g2 := tightBufGet buf w h s y x 2 hy hx (by omega)
  have g3 := tightBufGet buf w h s y x 3 hy hx (by omega)
  have ex : y * s + x * 4 = y * s + 4 * x := by ring
  refine ⟨tightBufLen buf w h s, ?_, ?_, ?_, ?_, ?_⟩
  · rw [show 4 * (y * w + x) = 4 * (y * w + x) + 0 from rfl, g0]
    simp [pixelBytes, ex]
  · rw [g1]
    simp [pixelBytes, ex]
  · rw [g2]
    simp [pixelBytes, ex]
  · rw [g3]
    simp [pixelBytes]
  · intro buf2 hagree
    unfold tight_buf
    apply flatMapRangeCongr
    intro y2 hy2
    unfold convertRow
    apply flatMapRangeCongr
    intro x2 hx2
    have h0 := hagree y2 (x2 * 4) hy2 (by omega)
    have h1 := hagree y2 (x2 * 4 + 1) hy2 (by omega)
    have h2 := hagree y2 (x2 * 4 + 2) hy2 (by omega)
    rw [← Nat.add_assoc] at h1 h2
    simp only [pixelBytes]
    rw [h0, h1, h2]

/-- Witness for C1 at the spec's 2-by-1 example frame with stride 8: bytes
B0 G0 R0 X0 B1 G1 R1 X1, pixel 1 of row 0 inspected. -/
theorem c1_pixel_conversion_witness :
    (tight_buf [10, 20, 30, 77, 11, 21, 31, 88] 2 1 8).length = 2 * 1 * 4 ∧
    (tight_buf [10, 20, 30, 77, 11, 21, 31, 88] 2 1 8)[4 * (0 * 2 + 1)]? =
      some ([10, 20, 30, 77, 11, 21, 31, 88].getD (0 * 8 + 4 * 1 + 2) 0) ∧
    (tight_buf [10, 20, 30, 77, 11, 21, 31, 88] 2 1 8)[4 * (0 * 2 + 1) + 1]? =
      some ([10, 20, 30, 77, 11, 21, 31, 88].getD (0 * 8 + 4 * 1 + 1) 0) ∧
    (tight_buf [10, 20, 30, 77, 11, 21, 31, 88] 2 1 8)[4 * (0 * 2 + 1) + 2]? =
      some ([10, 20, 30, 77, 11, 21, 31, 88].getD (0 * 8 + 4 * 1) 0) ∧
    (tight_buf [10, 20, 30, 77, 11, 21, 31, 88] 2 1 8)[4 * (0 * 2 + 1) + 3]? = some 255 ∧
    ∀ buf2 : List Nat,
      (∀ y2 j, y2 < 1 → j < 2 * 4 →
        [10, 20, 30, 77, 11, 21, 31, 88].getD (y2 * 8 + j) 0 = buf2.getD (y2 * 8 + j) 0) →
      tight_buf [10, 20, 30, 77, 11, 21, 31, 88] 2 1 8 = tight_buf buf2 2 1 8 :=
  c1_pixel_conversion [10, 20, 30, 77, 11, 21, 31, 88] 2 1 8 0 1 (by decide) (by decide)

/-- Claim C2 counterexample: rgba8888 is a format the wl_shm enum knows
that is not BGR-ordered, yet the conversion accepts it and decodes the
bytes under the BGR interpretation instead of failing: on the 1-by-1
frame 1 2 3 4 it produces 3 2 1 255. -/
theorem c2_format_counterexample :
    wlShmFormatOfWire 0x34324152 = some .rgba8888 ∧
    specIsBgr4ByteFormat .rgba8888 = false ∧
    captureAndConvert 0x34324152 [1, 2, 3, 4] 1 1 4 = some [3, 2, 1, 255] := by
  refine ⟨by decide, by decide, by decide⟩

/-- Claim C2 as amended: the conversion never inspects the stored pixel
format; the run aborts (the unwrap on the Buffer event panics) exactly
when the wire value is outside the known wl_shm format table, and any
known format, BGR-ordered or not, is decoded under the BGR
interpretation. -/
theorem c2_format_amended (wire : Nat) (buf : List Nat) (w h s : Nat) :
    (wlShmFormatOfWire wire = none → captureAndConvert wire buf w h s = none) ∧
    (∀ fmt, wlShmFormatOfWire wire = some fmt →
      captureAndConvert wire buf w h s = tightBufChecked buf w h s) := by
  constructor
  · intro hn
    simp [captureAndConvert, hn]
  · intro fmt hf
    simp [captureAndConvert, hf]

/-- Witness for the amended C2: wire value 2 is unknown and panics; wire
value 1 (xrgb8888) converts. -/
theorem c2_format_amended_witness :
    captureAndConvert 2 [5, 6, 7, 8] 1 1 4 = none ∧
    captureAndConvert 1 [5, 6, 7, 8] 1 1 4 = tightBufChecked [5, 6, 7, 8] 1 1 4 :=
  ⟨(c2_format_amended 2 [5, 6, 7, 8] 1 1 4).1 (by decide),
   (c2_format_amended 1 [5, 6, 7, 8] 1 1 4).2 .xrgb8888 (by decide)⟩

theorem splitOnCharNeNil (c : Char) (l : List Char) : splitOnChar c l ≠ [] := by
  cases l with
  | nil => simp [splitOnChar]
  | cons a rest =>
    unfold splitOnChar
    rcases h : splitOnChar c rest with _ | ⟨hh, t⟩
    · simp
    · by_cases hac : a = c <;> simp [hac]

theorem splitOneEq (c : Char) : ∀ (l x : List Char), splitOnChar c l = [x] → l = x := by
  intro l
  induction l with
  | nil =>
    intro x h
    have h' : [([] : List Char)] = [x] := h
    injection h'
  | cons hd rest ih =>
    intro x h
    rcases hs : splitOnChar c rest with _ | ⟨hh, t⟩
    · exact absurd hs (splitOnCharNeNil c rest)
    · unfold splitOnChar at h
      rw [hs] at h
      have h' : (if hd = c then [] :: hh :: t else (hd :: hh) :: t) = [x] := h
      by_cases hac : hd = c
      · rw [if_pos hac] at h'
        injection h' with _ h2
        cases h2
      · rw [if_neg hac] at h'
        injection h' with h1 h2
        have hr : rest = hh := ih hh (by rw [hs, h2])
        rw [hr, h1]

theorem splitTwoEq (c : Char) : ∀ (l a b : List Char), splitOnChar c l = [a, b] →
    l = a ++ c :: b := by
  intro l
  induction l with
  | nil =>
    intro a b h
    have h' : [([] : List Char)] = [a, b] := h
    injection h' with _ h2
    cases h2
  | cons hd rest ih =>
    intro a b h
    rcases hs : splitOnChar c rest with _ | ⟨hh, t⟩
    · exact absurd hs (splitOnCharNeNil c rest)
    · unfold splitOnChar at h
      rw [hs] at h
      have h' : (if hd = c then [] :: hh :: t else (hd :: hh) :: t) = [a, b] := h
      by_cases hac : hd = c
      · rw [if_pos hac] at h'
        injection h' with h1 h2
        injection h2 with h3 h4
        have hr : rest = b := splitOneEq c rest b (by rw [hs, h3, h4])
        rw [← h1, hac, hr]
        rfl
      · rw [if_neg hac] at h'
        injection h' with h1 h2
        have hr : rest = hh ++ c :: b := ih hh b (by rw [hs, h2])
        rw [← h1, hr]
        rfl

theorem splitOneOf (c : Char) : ∀ (x : List Char), c ∉ x → splitOnChar c x = [x] := by
  intro x
  induction x with
  | nil => intro _; rfl
  | cons hd r ih =>
    intro hnm
    have h1 : hd ≠ c := fun he => hnm (by rw [he]; simp)
    have h2 : c ∉ r := fun hm => hnm (by simp [hm])
    show (match splitOnChar c r with
      | [] => [[]]
      | h :: t => if hd = c then [] :: h :: t else (hd :: h) :: t) = [hd :: r]
    rw [ih h2]
    show (if hd = c then [] :: r :: [] else (hd :: r) :: []) = [hd :: r]
    rw [if_neg h1]

theorem splitTwoOf (c : Char) : ∀ (a b : List Char), c ∉ a → c ∉ b →
    splitOnChar c (a ++ c :: b) = [a, b] := by
  intro a
  induction a with
  | nil =>
    intro b _ hb
    show (match splitOnChar c b with
      | [] => [[]]
      | h :: t => if c = c then [] :: h :: t else (c :: h) :: t) = [[], b]
    rw [splitOneOf c b hb]
    show (if c = c then [] :: b :: [] else (c :: b) :: []) = [[], b]
    rw [if_pos rfl]
  | cons hd a2 ih =>
    intro b ha hb
    have h1 : hd ≠ c := fun he => ha (by rw [he]; simp)
    have h2 : c ∉ a2 := fun hm => ha (by simp [hm])
    show (match splitOnChar c (a2 ++ c :: b) with
      | [] => [[]]
      | h :: t => if hd = c then [] :: h :: t else (hd :: h) :: t) = [hd :: a2, b]
    rw [ih b h2 hb]
    show (if hd = c then [] :: a2 :: [b] else (hd :: a2) :: [b]) = [hd :: a2, b]
    rw [if_neg h1]

theorem digitsAuxChars : ∀ (l : List Char) (acc n : Nat), digitsAux acc l = some n →
    ∀ ch ∈ l, '0' ≤ ch ∧ ch ≤ '9' := by
  intro l
  induction l with
  | nil => intro acc n _ ch hch; cases hch
  | cons c r ih =>
    intro acc n hd ch hch
    unfold digitsAux at hd
    rcases hdv : digitVal? c with _ | d
    · rw [hdv] at hd
      exact absurd hd (by simp)
    · rw [hdv] at hd
      rcases List.mem_cons.mp hch with h | h
      · subst h
        unfold digitVal? at hdv
        by_cases hcd : '0' ≤ ch ∧ ch ≤ '9'
        · exact hcd
        · rw [if_neg hcd] at hdv
          cases hdv
      · exact ih (acc * 10 + d) n hd ch h

theorem parseDigitsChars (l : List Char) (n : Nat) (hp : parseDigits? l = some n) :
    ∀ ch ∈ l, '0' ≤ ch ∧ ch ≤ '9' := by
  cases l with
  | nil => intro ch hch; cases hch
  | cons c r =>
    have hd : digitsAux 0 (c :: r) = some n := hp
    exact digitsAuxChars (c :: r) 0 n hd

theorem parseI32Chars (l : List Char) (v : Int) (hp : parseI32 l = some v) :
    ∀ ch ∈ l, ch = '-' ∨ ch = '+' ∨ ('0' ≤ ch ∧ ch ≤ '9') := by
  intro ch hch
  unfold parseI32 at hp
  split at hp
  · rcases Option.bind_eq_some.mp hp with ⟨n, hn, _⟩
    rcases List.mem_cons.mp hch with h | h
    · left; exact h
    · right; right; exact parseDigitsChars _ n hn ch h
  · rcases Option.bind_eq_some.mp hp with ⟨n, hn, _⟩
    rcases List.mem_cons.mp hch with h | h
    · right; left; exact h
    · right; right; exact parseDigitsChars _ n hn ch h
  · rcases Option.bind_eq_some.mp hp with ⟨n, hn, _⟩
    right; right; exact parseDigitsChars _ n hn ch hch

theorem parseU32Chars (l : List Char) (v : Nat) (hp : parseU32 l = some v) :
    ∀ ch ∈ l, ch = '+' ∨ ('0' ≤ ch ∧ ch ≤ '9') := by
  intro ch hch
  unfold parseU32 at hp
  split at hp
  · rcases Option.bind_eq_some.mp hp with ⟨n, hn, _⟩
    rcases List.mem_cons.mp hch with h | h
    · left; exact h
    · right; exact parseDigitsChars _ n hn ch h
  · rcases Option.bind_eq_some.mp hp with ⟨n, hn, _⟩
    right; exact parseDigitsChars _ n hn ch hch

theorem parseI32NoSep (l : List Char) (v : Int) (hp : parseI32 l = some v) :
    ' ' ∉ l ∧ ',' ∉ l := by
  have hc := parseI32Chars l v hp
  constructor
  · intro hmem
    rcases hc ' ' hmem with h | h | ⟨h1, _⟩
    · exact absurd h (by decide)
    · exact absurd h (by decide)
    · exact absurd h1 (by decide)
  · intro hmem
    rcases hc ',' hmem with h | h | ⟨h1, _⟩
    · exact absurd h (by decide)
    · exact absurd h (by decide)
    · exact absurd h1 (by decide)

theorem parseU32NoSep (l : List Char) (v : Nat) (hp : parseU32 l = some v) :
    ' ' ∉ l ∧ 'x' ∉ l := by
  have hc := parseU32Chars l v hp
  constructor
  · intro hmem
    rcases hc ' ' hmem with h | ⟨h1, _⟩
    · exact absurd h (by decide)
    · exact absurd h1 (by decide)
  · intro hmem
    rcases hc 'x' hmem with h | ⟨_, h2⟩
    · exact absurd h (by decide)
    · exact absurd h2 (by decide)

theorem notMemAppendCons {c d : Char} {a b : List Char} (ha : c ∉ a) (hd : c ≠ d)
    (hb : c ∉ b) : c ∉ a ++ d :: b := by
  intro hmem
  rcases List.mem_append.mp hmem with h | h
  · exact ha h
  · rcases List.mem_cons.mp h with h | h
    · exact hd h
    · exact hb h

/-- Claim C4: parse_geometry succeeds exactly on strings of the shape
X,Y WxH with X and Y parsing as i32 and W and H as u32 (witnessed by the
decomposition with no stray separator); it accepts the spec's positive
example and returns none on the spec's four malformed examples; and a
geometry flag whose value fails to parse selects targets exactly as if
the flag were absent. -/
theorem c4_parse_geometry (g : List Char) (x y : Int) (w h : Nat) :
    (parse_geometry g = some (x, y, w, h) ↔
      ∃ sx sy sw sh : List Char,
        g = (sx ++ ',' :: sy) ++ ' ' :: (sw ++ 'x' :: sh) ∧
        parseI32 sx = some x ∧ parseI32 sy = some y ∧
        parseU32 sw = some w ∧ parseU32 sh = some h) ∧
    parse_geometry ("10,20 300x400".data) = some (10, 20, 300, 400) ∧
    parse_geometry ("bad".data) = none ∧
    parse_geometry ("10,20".data) = none ∧
    parse_geometry ("10,20 300".data) = none ∧
    parse_geometry ("a,b 1x1".data) = none ∧
    ∀ outputs : List OutputInfo, parse_geometry g = none →
      selectTargets (some g) outputs = selectTargets none outputs := by
  refine ⟨⟨?_, ?_⟩, by decide, by decide, by decide, by decide, by decide, ?_⟩
  · intro hpg
    unfold parse_geometry at hpg
    split at hpg
    case h_2 => cases hpg
    case h_1 p0 p1 heqsp =>
      split at hpg
      case h_2 => cases hpg
      case h_1 c0 c1 heqc =>
        split at hpg
        case h_2 => cases hpg
        case h_1 d0 d1 heqd =>
          rcases Option.bind_eq_some.mp hpg with ⟨xv, hx, hpg2⟩
          rcases Option.bind_eq_some.mp hpg2 with ⟨yv, hy, hpg3⟩
          rcases Option.bind_eq_some.mp hpg3 with ⟨wv, hw, hpg4⟩
          rcases Option.bind_eq_some.mp hpg4 with ⟨hv, hh, hfin⟩
          injection hfin with hfe
          injection hfe with e1 e234
          injection e234 with e2 e34
          injection e34 with e3 e4
          subst e1
          subst e2
          subst e3
          subst e4
          refine ⟨c0, c1, d0, d1, ?_, hx, hy, hw, hh⟩
          have e1g := splitTwoEq ' ' g p0 p1 heqsp
          have e2g := splitTwoEq ',' p0 c0 c1 heqc
          have e3g := splitTwoEq 'x' p1 d0 d1 heqd
          rw [e1g, e2g, e3g]
  · rintro ⟨sx, sy, sw, sh, hg, hx, hy, hw, hh⟩
    have nx := parseI32NoSep sx x hx
    have ny := parseI32NoSep sy y hy
    have nw := parseU32NoSep sw w hw
    have nh := parseU32NoSep sh h hh
    have hp0 : splitOnChar ',' (sx ++ ',' :: sy) = [sx, sy] :=
      splitTwoOf ',' sx sy nx.2 ny.2
    have hp1 : splitOnChar 'x' (sw ++ 'x' :: sh) = [sw, sh] :=
      splitTwoOf 'x' sw sh nw.2 nh.2
    have hsp : splitOnChar ' ' ((sx ++ ',' :: sy) ++ ' ' :: (sw ++ 'x' :: sh)) =
        [sx ++ ',' :: sy, sw ++ 'x' :: sh] :=
      splitTwoOf ' ' _ _ (notMemAppendCons nx.1 (by decide) ny.1)
        (notMemAppendCons nw.1 (by decide) nh.1)
    rw [hg]
    unfold parse_geometry
    rw [hsp]
    simp only [hp0, hp1, hx, hy, hw, hh, Option.some_bind]
  · intro outputs hnone
    unfold selectTargets
    simp [Option.bind, hnone]

/-- Witness for C4: the characterization applied at a concrete
decomposition, and flag-absent behaviour at a failing parse. -/
theorem c4_parse_geometry_witness :
    parse_geometry ("1,2 3x4".data) = some (1, 2, 3, 4) ∧
    selectTargets (some ("bad".data)) [] = selectTargets none [] :=
  ⟨(c4_parse_geometry ("1,2 3x4".data) 1 2 3 4).1.mpr
    ⟨"1".data, "2".data, "3".data, "4".data, by decide, by decide, by decide, by decide,
      by decide⟩,
   (c4_parse_geometry ("bad".data) 0 0 0 0).2.2.2.2.2.2 []
    (c4_parse_geometry ("bad".data) 0 0 0 0).2.2.1⟩

theorem overlapsRegionIff (gx gy : Int) (gw gh : Nat) (o : OutputInfo)
    (hgw : gw < 2 ^ 31) (hgh : gh < 2 ^ 31) :
    overlapsRegion gx gy gw gh o = true ↔
      (gx < o.x + o.width ∧ gx + (gw : Int) > o.x ∧
        gy < o.y + o.height ∧ gy + (gh : Int) > o.y) := by
  unfold overlapsRegion i32ofU32
  rw [if_pos hgw, if_pos hgh]
  simp [Bool.and_eq_true, decide_eq_true_eq, and_assoc]

/-- Claim C3: with a parsed region whose dimensions fit in i32, an output
is a target exactly when it half-open-overlaps the region on both axes,
provided some output overlaps; with no parsed region or no overlapping
output, exactly the first discovered output is selected; and with no
outputs at all the run fails with the no-output diagnostic. -/
theorem c3_target_selection (geometry : Option (List Char)) (outputs : List OutputInfo)
    (gx gy : Int) (gw gh : Nat) (events : OutputInfo → List CFrameEvent)
    (content : OutputInfo → List Nat) :
    (geometry.bind parse_geometry = some (gx, gy, gw, gh) → gw < 2 ^ 31 → gh < 2 ^ 31 →
      (∃ o2 ∈ outputs, overlapsRegion gx gy gw gh o2) →
      ∀ o : OutputInfo, o ∈ (selectTargets geometry outputs).1 ↔
        o ∈ outputs ∧ (gx < o.x + o.width ∧ gx + (gw : Int) > o.x ∧
          gy < o.y + o.height ∧ gy + (gh : Int) > o.y)) ∧
    (∀ o0 rest, outputs = o0 :: rest →
      (geometry.bind parse_geometry = none ∨
        (geometry.bind parse_geometry = some (gx, gy, gw, gh) ∧
          ∀ o2 ∈ outputs, ¬ overlapsRegion gx gy gw gh o2)) →
      (selectTargets geometry outputs).1 = [o0]) ∧
    (outputs = [] → runGrim geometry outputs events content = .error .noOutput) := by
  refine ⟨?_, ?_, ?_⟩
  · intro hcrop hgw hgh hex o
    have hne : (outputs.filter (overlapsRegion gx gy gw gh)).isEmpty = false := by
      rcases hex with ⟨o2, ho2, hov⟩
      have hm : o2 ∈ outputs.filter (overlapsRegion gx gy gw gh) :=
        List.mem_filter.mpr ⟨ho2, hov⟩
      rcases houts : outputs.filter (overlapsRegion gx gy gw gh) with _ | ⟨a, t⟩
      · rw [houts] at hm
        cases hm
      · rfl
    simp only [selectTargets, hcrop, hne, Bool.false_eq_true, if_false, List.mem_filter]
    exact and_congr_right (fun _ => overlapsRegionIff gx gy gw gh o hgw hgh)
  · intro o0 rest houts hcase
    rcases hcase with hnone | ⟨hsome, hnov⟩
    · simp [selectTargets, hnone, houts]
    · have hnil : (o0 :: rest).filter (overlapsRegion gx gy gw gh) = [] := by
        apply List.filter_eq_nil_iff.mpr
        intro a ha
        rw [← houts] at ha
        simpa using hnov a ha
      simp [selectTargets, hsome, houts, hnil]
  · intro houts
    subst houts
    unfold runGrim selectTargets
    rcases hc : Option.bind geometry parse_geometry with _ | ⟨⟨a, b, c, d⟩⟩ <;> simp

/-- Witness for C3 at the spec's two side-by-side 1920x1080 outputs: the
region 1900,500 100x100 selects both, the region 5000,5000 10x10 selects
neither and falls back to the first output, and an empty output list is
the no-output error. -/
theorem c3_target_selection_witness :
    ((⟨0, 0, 1920, 1080, 1⟩ : OutputInfo) ∈
      (selectTargets (some ("1900,500 100x100".data))
        [⟨0, 0, 1920, 1080, 1⟩, ⟨1920, 0, 1920, 1080, 1⟩]).1 ↔
      (⟨0, 0, 1920, 1080, 1⟩ : OutputInfo) ∈
        [(⟨0, 0, 1920, 1080, 1⟩ : OutputInfo), ⟨1920, 0, 1920, 1080, 1⟩] ∧
        ((1900 : Int) < 0 + 1920 ∧ (1900 : Int) + (100 : Nat) > 0 ∧
          (500 : Int) < 0 + 1080 ∧ (500 : Int) + (100 : Nat) > 0)) ∧
    (selectTargets (some ("5000,5000 10x10".data))
      [⟨0, 0, 1920, 1080, 1⟩, ⟨1920, 0, 1920, 1080, 1⟩]).1 = [⟨0, 0, 1920, 1080, 1⟩] ∧
    runGrim none [] (fun _ => []) (fun _ => []) = .error .noOutput :=
  ⟨(c3_target_selection (some ("1900,500 100x100".data))
      [⟨0, 0, 1920, 1080, 1⟩, ⟨1920, 0, 1920, 1080, 1⟩] 1900 500 100 100
      (fun _ => []) (fun _ => [])).1 (by decide) (by decide) (by decide)
      ⟨⟨0, 0, 1920, 1080, 1⟩, by decide, by decide⟩ ⟨0, 0, 1920, 1080, 1⟩,
   (c3_target_selection (some ("5000,5000 10x10".data))
      [⟨0, 0, 1920, 1080, 1⟩, ⟨1920, 0, 1920, 1080, 1⟩] 5000 5000 10 10
      (fun _ => []) (fun _ => [])).2.1 ⟨0, 0, 1920, 1080, 1⟩ [⟨1920, 0, 1920, 1080, 1⟩]
      rfl (Or.inr ⟨by decide, by decide⟩),
   (c3_target_selection none [] 0 0 0 0 (fun _ => []) (fun _ => [])).2.2 rfl⟩

/-- Claim C7: when exactly one output was captured and no crop was
requested, the rendered image is the converted frame itself, and the
save emits it byte-for-byte (the png encoder accepting any image of
nonzero dimensions unchanged). -/
theorem c7_single_output_identity (o : OutputInfo) (img : Img) (ts : List OutputInfo) :
    renderImage none ts [(o, img)] = img ∧
    (0 < img.width → 0 < img.height → runSave none ts [(o, img)] = .ok img) := by
  constructor
  · rfl
  · intro hw hh
    have h1 : img.width ≠ 0 := by omega
    have h2 : img.height ≠ 0 := by omega
    simp [runSave, renderImage, encodePng, h1, h2]

/-- Witness for C7 at a concrete 1-by-1 image. -/
theorem c7_single_output_identity_witness :
    runSave none [⟨0, 0, 1, 1, 1⟩] [(⟨0, 0, 1, 1, 1⟩, ⟨1, 1, [9, 8, 7, 255]⟩)] =
      .ok ⟨1, 1, [9, 8, 7, 255]⟩ :=
  (c7_single_output_identity ⟨0, 0, 1, 1, 1⟩ ⟨1, 1, [9, 8, 7, 255]⟩ [⟨0, 0, 1, 1, 1⟩]).2
    (by decide) (by decide)

theorem minDLe (l : List Int) (d a : Int) (ha : a ∈ l) : minD l d ≤ a := by
  cases l with
  | nil => cases ha
  | cons b r =>
    rcases List.mem_cons.mp ha with h | h
    · show List.foldl min b r ≤ a
      rw [h]
      exact foldlMinLeInit r b
    · exact foldlMinLeMem r b a h

theorem minDMemOf (l : List Int) (d : Int) (hne : l ≠ []) : minD l d ∈ l := by
  cases l with
  | nil => exact absurd rfl hne
  | cons b r =>
    show List.foldl min b r ∈ b :: r
    rcases foldlMinMem r b with h | h
    · rw [h]; simp
    · simp [h]

theorem maxDGe (l : List Int) (d a : Int) (ha : a ∈ l) : a ≤ maxD l d := by
  cases l with
  | nil => cases ha
  | cons b r =>
    rcases List.mem_cons.mp ha with h | h
    · show a ≤ List.foldl max b r
      calc a = b := h
        _ ≤ List.foldl max b r := foldlMaxGeInit r b
    · exact foldlMaxGeMem r b a h

theorem maxDMemOf (l : List Int) (d : Int) (hne : l ≠ []) : maxD l d ∈ l := by
  cases l with
  | nil => exact absurd rfl hne
  | cons b r =>
    show List.foldl max b r ∈ b :: r
    rcases foldlMaxMem r b with h | h
    · rw [h]; simp
    · simp [h]

theorem mkImgPix (w h : Nat) (f : Nat → Nat → Nat → Nat) (x y c : Nat)
    (hx : x < w) (hy : y < h) (hc : c < 4) :
    pixByte (mkImg w h f) x y c = f x y c := by
  show ((List.range h).flatMap (fun y2 =>
    (List.range w).flatMap (fun x2 => (List.range 4).map (f x2 y2)))).getD
      (4 * (y * w + x) + c) 0 = f x y c
  rw [List.getD_eq_getElem?_getD]
  have e : 4 * (y * w + x) + c = (w * 4) * y + (x * 4 + c) := by ring
  rw [e]
  rw [flatMapRangeGet (fun y2 => (List.range w).flatMap (fun x2 => (List.range 4).map (f x2 y2)))
    (w * 4) (fun i => flatMapRangeLen (fun x2 => (List.range 4).map (f x2 i)) 4
      (fun _ => by simp) w) h y (x * 4 + c) hy (by omega)]
  rw [show x * 4 + c = 4 * x + c from by ring]
  rw [flatMapRangeGet (fun x2 => (List.range 4).map (f x2 y)) 4 (fun _ => by simp) w x c hx hc]
  rw [List.getElem?_map, List.getElem?_range hc]
  rfl

theorem foldlOverlayDims (ts : List OutputInfo) :
    ∀ (l : List (OutputInfo × Img)) (acc : Img),
      ((l.foldl (fun acc2 oi => overlayImg acc2 (scaledBuffer (compositeScaleOf ts) oi.1 oi.2)
        (destXOf ts oi.1) (destYOf ts oi.1)) acc).width = acc.width ∧
      (l.foldl (fun acc2 oi => overlayImg acc2 (scaledBuffer (compositeScaleOf ts) oi.1 oi.2)
        (destXOf ts oi.1) (destYOf ts oi.1)) acc).height = acc.height) := by
  intro l
  induction l with
  | nil => intro acc; exact ⟨rfl, rfl⟩
  | cons a r ih =>
    intro acc
    rw [List.foldl_cons]
    rcases ih (overlayImg acc (scaledBuffer (compositeScaleOf ts) a.1 a.2)
      (destXOf ts a.1) (destYOf ts a.1)) with ⟨h1, h2⟩
    exact ⟨by rw [h1]; rfl, by rw [h2]; rfl⟩

theorem compositeDims (ts : List OutputInfo) (captured : List (OutputInfo × Img)) :
    (compositeImg ts captured).width = canvasWOf ts ∧
    (compositeImg ts captured).height = canvasHOf ts := by
  unfold compositeImg
  rcases foldlOverlayDims ts captured (blankImg (canvasWOf ts) (canvasHOf ts)) with ⟨h1, h2⟩
  exact ⟨by rw [h1]; rfl, by rw [h2]; rfl⟩

theorem compositeLastPix (ts : List OutputInfo) (init : List (OutputInfo × Img))
    (o : OutputInfo) (img : Img) (hsc : o.scale = compositeScaleOf ts)
    (u v c : Nat) (hu : u < img.width) (hv : v < img.height) (hc : c < 4)
    (hdx : 0 ≤ destXOf ts o) (hdy : 0 ≤ destYOf ts o)
    (hxc : (destXOf ts o).toNat + u < canvasWOf ts)
    (hyc : (destYOf ts o).toNat + v < canvasHOf ts) :
    pixByte (compositeImg ts (init ++ [(o, img)])) ((destXOf ts o).toNat + u)
      ((destYOf ts o).toNat + v) c = pixByte img u v c := by
  unfold compositeImg
  rw [List.foldl_append, List.foldl_cons, List.foldl_nil]
  dsimp only
  have hscb : scaledBuffer (compositeScaleOf ts) o img = img := by
    unfold scaledBuffer
    rw [if_neg (by rw [hsc]; exact fun hne => hne rfl)]
  rw [hscb]
  set acc := init.foldl (fun acc2 oi => overlayImg acc2 (scaledBuffer (compositeScaleOf ts)
    oi.1 oi.2) (destXOf ts oi.1) (destYOf ts oi.1)) (blankImg (canvasWOf ts) (canvasHOf ts))
    with hacc
  have hdims : acc.width = canvasWOf ts ∧ acc.height = canvasHOf ts := by
    rw [hacc]
    rcases foldlOverlayDims ts init (blankImg (canvasWOf ts) (canvasHOf ts)) with ⟨h1, h2⟩
    exact ⟨by rw [h1]; rfl, by rw [h2]; rfl⟩
  have hX : (((destXOf ts o).toNat + u : Nat) : Int) = destXOf ts o + u := by
    push_cast
    rw [Int.toNat_of_nonneg hdx]
  have hY : (((destYOf ts o).toNat + v : Nat) : Int) = destYOf ts o + v := by
    push_cast
    rw [Int.toNat_of_nonneg hdy]
  unfold overlayImg
  rw [mkImgPix acc.width acc.height _ _ _ c (by rw [hdims.1]; exact hxc)
    (by rw [hdims.2]; exact hyc) hc]
  rw [if_pos ?_]
  · rw [hX, hY]
    have e1 : destXOf ts o + (u : Int) - destXOf ts o = (u : Int) := by ring
    have e2 : destYOf ts o + (v : Int) - destYOf ts o = (v : Int) := by ring
    rw [e1, e2, Int.toNat_natCast, Int.toNat_natCast]
  · refine ⟨?_, ?_, ?_, ?_⟩
    · rw [hX]; omega
    · rw [hX]; omega
    · rw [hY]; omega
    · rw [hY]; omega

/-- Claim C6: the composite bounding box bounds every target output's
logical rectangle and is attained on it, the composite scale is the
maximum target scale, the canvas dimensions are the box extent times the
scale (truncated by the u32 cast, exact when in range), a captured image
whose output has the composite scale lands pixel-for-pixel at the
destination offset ((x - min_x) * scale, (y - min_y) * scale), and for
two equal-scale horizontally adjacent outputs the canvas width is the
sum of their logical widths times the scale. -/
theorem c6_compositing :
    (∀ ts : List OutputInfo, ts ≠ [] →
      (∀ o ∈ ts, minXOf ts ≤ o.x ∧ minYOf ts ≤ o.y ∧ o.x + o.width ≤ maxXOf ts ∧
        o.y + o.height ≤ maxYOf ts ∧ o.scale ≤ compositeScaleOf ts) ∧
      (∃ o ∈ ts, minXOf ts = o.x) ∧ (∃ o ∈ ts, maxXOf ts = o.x + o.width) ∧
      (∃ o ∈ ts, compositeScaleOf ts = o.scale)) ∧
    (∀ ts : List OutputInfo,
      0 ≤ (maxXOf ts - minXOf ts) * compositeScaleOf ts →
      (maxXOf ts - minXOf ts) * compositeScaleOf ts < 2 ^ 32 →
      canvasWOf ts = ((maxXOf ts - minXOf ts) * compositeScaleOf ts).toNat) ∧
    (∀ ts : List OutputInfo,
      0 ≤ (maxYOf ts - minYOf ts) * compositeScaleOf ts →
      (maxYOf ts - minYOf ts) * compositeScaleOf ts < 2 ^ 32 →
      canvasHOf ts = ((maxYOf ts - minYOf ts) * compositeScaleOf ts).toNat) ∧
    (∀ (ts : List OutputInfo) (init : List (OutputInfo × Img)) (o : OutputInfo) (img : Img)
      (u v c : Nat), o.scale = compositeScaleOf ts → u < img.width → v < img.height →
      c < 4 → 0 ≤ (o.x - minXOf ts) * compositeScaleOf ts →
      0 ≤ (o.y - minYOf ts) * compositeScaleOf ts →
      ((o.x - minXOf ts) * compositeScaleOf ts).toNat + u < canvasWOf ts →
      ((o.y - minYOf ts) * compositeScaleOf ts).toNat + v < canvasHOf ts →
      pixByte (compositeImg ts (init ++ [(o, img)]))
        (((o.x - minXOf ts) * compositeScaleOf ts).toNat + u)
        (((o.y - minYOf ts) * compositeScaleOf ts).toNat + v) c = pixByte img u v c) ∧
    (∀ o1 o2 : OutputInfo, o2.x = o1.x + o1.width → 0 ≤ o1.width → 0 ≤ o2.width →
      o1.scale = o2.scale →
      0 ≤ (o1.width + o2.width) * o2.scale → (o1.width + o2.width) * o2.scale < 2 ^ 32 →
      canvasWOf [o1, o2] = ((o1.width + o2.width) * compositeScaleOf [o1, o2]).toNat) := by
  refine ⟨?_, ?_, ?_, ?_, ?_⟩
  · intro ts hne
    have hmapne : ∀ (f : OutputInfo → Int), ts.map f ≠ [] := by
      intro f hmap
      exact hne (by simpa using hmap)
    refine ⟨?_, ?_, ?_, ?_⟩
    · intro o ho
      exact ⟨minDLe _ 0 o.x (List.mem_map_of_mem _ ho),
        minDLe _ 0 o.y (List.mem_map_of_mem _ ho),
        maxDGe _ 0 (o.x + o.width) (List.mem_map_of_mem _ ho),
        maxDGe _ 0 (o.y + o.height) (List.mem_map_of_mem _ ho),
        maxDGe _ 1 o.scale (List.mem_map_of_mem _ ho)⟩
    · rcases List.mem_map.mp (minDMemOf (ts.map fun o => o.x) 0 (hmapne _)) with ⟨o, ho, he⟩
      exact ⟨o, ho, he.symm⟩
    · rcases List.mem_map.mp (maxDMemOf (ts.map fun o => o.x + o.width) 0 (hmapne _)) with
        ⟨o, ho, he⟩
      exact ⟨o, ho, he.symm⟩
    · rcases List.mem_map.mp (maxDMemOf (ts.map fun o => o.scale) 1 (hmapne _)) with
        ⟨o, ho, he⟩
      exact ⟨o, ho, he.symm⟩
  · intro ts h1 h2
    unfold canvasWOf u32wrap
    rw [Int.emod_eq_of_lt h1 h2]
  · intro ts h1 h2
    unfold canvasHOf u32wrap
    rw [Int.emod_eq_of_lt h1 h2]
  · intro ts init o img u v c hsc hu hv hc hdx hdy hxc hyc
    exact compositeLastPix ts init o img hsc u v c hu hv hc hdx hdy hxc hyc
  · intro o1 o2 hadj hw1 hw2 hsc hnn hlt
    have hmin : minXOf [o1, o2] = o1.x := by
      show min o1.x o2.x = o1.x
      exact min_eq_left (by omega)
    have hmax : maxXOf [o1, o2] = o2.x + o2.width := by
      show max (o1.x + o1.width) (o2.x + o2.width) = o2.x + o2.width
      exact max_eq_right (by omega)
    have hcs : compositeScaleOf [o1, o2] = o2.scale := by
      show max o1.scale o2.scale = o2.scale
      rw [hsc]
      exact max_self o2.scale
    unfold canvasWOf u32wrap
    rw [hmin, hmax, hcs, show o2.x + o2.width - o1.x = o1.width + o2.width from by omega,
      Int.emod_eq_of_lt hnn hlt]

/-- Witness for C6 at two adjacent scale-1 outputs of logical widths 2
and 3 with a 2x1 and a 3x1 captured image: the canvas is 5 wide and the
second image's pixel (1, 0) lands at canvas position (3, 0). -/
theorem c6_compositing_witness :
    canvasWOf [⟨0, 0, 2, 1, 1⟩, ⟨2, 0, 3, 1, 1⟩] =
      (((⟨0, 0, 2, 1, 1⟩ : OutputInfo).width + (⟨2, 0, 3, 1, 1⟩ : OutputInfo).width) *
        compositeScaleOf [⟨0, 0, 2, 1, 1⟩, ⟨2, 0, 3, 1, 1⟩]).toNat ∧
    pixByte (compositeImg [⟨0, 0, 2, 1, 1⟩, ⟨2, 0, 3, 1, 1⟩]
        ([(⟨0, 0, 2, 1, 1⟩, ⟨2, 1, [1, 1, 1, 255, 2, 2, 2, 255]⟩)] ++
          [(⟨2, 0, 3, 1, 1⟩, ⟨3, 1, [3, 3, 3, 255, 4, 4, 4, 255, 5, 5, 5, 255]⟩)]))
        ((((⟨2, 0, 3, 1, 1⟩ : OutputInfo).x - minXOf [⟨0, 0, 2, 1, 1⟩, ⟨2, 0, 3, 1, 1⟩]) *
          compositeScaleOf [⟨0, 0, 2, 1, 1⟩, ⟨2, 0, 3, 1, 1⟩]).toNat + 1)
        ((((⟨2, 0, 3, 1, 1⟩ : OutputInfo).y - minYOf [⟨0, 0, 2, 1, 1⟩, ⟨2, 0, 3, 1, 1⟩]) *
          compositeScaleOf [⟨0, 0, 2, 1, 1⟩, ⟨2, 0, 3, 1, 1⟩]).toNat + 0) 0 =
      pixByte ⟨3, 1, [3, 3, 3, 255, 4, 4, 4, 255, 5, 5, 5, 255]⟩ 1 0 0 :=
  ⟨c6_compositing.2.2.2.2 ⟨0, 0, 2, 1, 1⟩ ⟨2, 0, 3, 1, 1⟩ (by decide) (by decide) (by decide)
      (by decide) (by decide) (by decide),
   c6_compositing.2.2.2.1 [⟨0, 0, 2, 1, 1⟩, ⟨2, 0, 3, 1, 1⟩]
      [(⟨0, 0, 2, 1, 1⟩, ⟨2, 1, [1, 1, 1, 255, 2, 2, 2, 255]⟩)] ⟨2, 0, 3, 1, 1⟩
      ⟨3, 1, [3, 3, 3, 255, 4, 4, 4, 255, 5, 5, 5, 255]⟩ 1 0 0 (by decide) (by decide)
      (by decide) (by decide) (by decide) (by decide) (by decide) (by decide)⟩

/-- Claim C5: with the crop origin at or right of the canvas origin and
all scale products in u32 range, the crop rectangle is exactly
((region.x - min_x) * scale, (region.y - min_y) * scale) with width and
height clamped to min(requested * scale, canvas - offset); a positive
clamped extent never reaches past the canvas; and a crop clamped to zero
area makes the save fail with the zero-dimension encoder error instead
of producing an image. -/
theorem c5_crop_clamp (gx gy : Int) (gw gh : Nat) (minX minY cs : Int) (cw ch : Nat)
    (hgx : minX ≤ gx) (hgy : minY ≤ gy) (hcs : 0 ≤ cs)
    (hxr : (gx - minX) * cs < 2 ^ 32) (hyr : (gy - minY) * cs < 2 ^ 32)
    (hcsr : cs < 2 ^ 32) (hwr : gw * cs.toNat < 2 ^ 32) (hhr : gh * cs.toNat < 2 ^ 32) :
    (cropRect gx gy gw gh minX minY cs cw ch).1 = ((gx - minX) * cs).toNat ∧
    (cropRect gx gy gw gh minX minY cs cw ch).2.1 = ((gy - minY) * cs).toNat ∧
    (cropRect gx gy gw gh minX minY cs cw ch).2.2.1 =
      min (gw * cs.toNat) (cw - ((gx - minX) * cs).toNat) ∧
    (cropRect gx gy gw gh minX minY cs cw ch).2.2.2 =
      min (gh * cs.toNat) (ch - ((gy - minY) * cs).toNat) ∧
    (0 < (cropRect gx gy gw gh minX minY cs cw ch).2.2.1 →
      (cropRect gx gy gw gh minX minY cs cw ch).1 +
        (cropRect gx gy gw gh minX minY cs cw ch).2.2.1 ≤ cw) ∧
    (0 < (cropRect gx gy gw gh minX minY cs cw ch).2.2.2 →
      (cropRect gx gy gw gh minX minY cs cw ch).2.1 +
        (cropRect gx gy gw gh minX minY cs cw ch).2.2.2 ≤ ch) ∧
    ∀ ts : List OutputInfo, ∀ captured : List (OutputInfo × Img),
      (cropRect gx gy gw gh (minXOf ts) (minYOf ts) (compositeScaleOf ts)
          (canvasWOf ts) (canvasHOf ts)).2.2.1 = 0 ∨
      (cropRect gx gy gw gh (minXOf ts) (minYOf ts) (compositeScaleOf ts)
          (canvasWOf ts) (canvasHOf ts)).2.2.2 = 0 →
      runSave (some (gx, gy, gw, gh)) ts captured = .error .pngZeroWidth ∨
      runSave (some (gx, gy, gw, gh)) ts captured = .error .pngZeroHeight := by
  have hxnn : 0 ≤ (gx - minX) * cs := mul_nonneg (by omega) hcs
  have hynn : 0 ≤ (gy - minY) * cs := mul_nonneg (by omega) hcs
  have hwx : u32wrap ((gx - minX) * cs) = ((gx - minX) * cs).toNat := by
    unfold u32wrap
    rw [Int.emod_eq_of_lt hxnn hxr]
  have hwy : u32wrap ((gy - minY) * cs) = ((gy - minY) * cs).toNat := by
    unfold u32wrap
    rw [Int.emod_eq_of_lt hynn hyr]
  have hwc : u32wrap cs = cs.toNat := by
    unfold u32wrap
    rw [Int.emod_eq_of_lt hcs hcsr]
  refine ⟨?_, ?_, ?_, ?_, ?_, ?_, ?_⟩
  · show u32wrap ((gx - minX) * cs) = _
    exact hwx
  · show u32wrap ((gy - minY) * cs) = _
    exact hwy
  · show min (gw * u32wrap cs % 2 ^ 32) (cw - u32wrap ((gx - minX) * cs)) = _
    rw [hwc, hwx, Nat.mod_eq_of_lt hwr]
  · show min (gh * u32wrap cs % 2 ^ 32) (ch - u32wrap ((gy - minY) * cs)) = _
    rw [hwc, hwy, Nat.mod_eq_of_lt hhr]
  · intro hpos
    have hle : (cropRect gx gy gw gh minX minY cs cw ch).2.2.1 ≤
        cw - (cropRect gx gy gw gh minX minY cs cw ch).1 :=
      Nat.min_le_right _ _
    omega
  · intro hpos
    have hle : (cropRect gx gy gw gh minX minY cs cw ch).2.2.2 ≤
        ch - (cropRect gx gy gw gh minX minY cs cw ch).2.1 :=
      Nat.min_le_right _ _
    omega
  · intro ts captured hzero
    rcases captured with _ | ⟨a, t⟩
    · rcases hzero with hz | hz
      · left
        simp [runSave, renderImage, encodePng, subImg, mkImg, hz]
      · by_cases hw0 : (cropRect gx gy gw gh (minXOf ts) (minYOf ts) (compositeScaleOf ts)
            (canvasWOf ts) (canvasHOf ts)).2.2.1 = 0
        · left
          simp [runSave, renderImage, encodePng, subImg, mkImg, hw0]
        · right
          simp [runSave, renderImage, encodePng, subImg, mkImg, hw0, hz]
    · rcases hzero with hz | hz
      · left
        simp [runSave, renderImage, encodePng, subImg, mkImg, hz]
      · by_cases hw0 : (cropRect gx gy gw gh (minXOf ts) (minYOf ts) (compositeScaleOf ts)
            (canvasWOf ts) (canvasHOf ts)).2.2.1 = 0
        · left
          simp [runSave, renderImage, encodePng, subImg, mkImg, hw0]
        · right
          simp [runSave, renderImage, encodePng, subImg, mkImg, hw0, hz]

theorem runCaptureDone (st : CaptureState) (hd : st.buffer_done = true) :
    ∀ l, runCapture st l = some st := by
  intro l
  cases l <;> simp [runCapture, hd]

theorem runCapturePreFailed (post : List CFrameEvent) :
    ∀ (pre : List CFrameEvent), (∀ e ∈ pre, e = .otherEv) →
    ∀ st : CaptureState, st.buffer_done = false →
    runCapture st (pre ++ .failedEv :: post) = some { st with buffer_done := true } := by
  intro pre
  induction pre with
  | nil =>
    intro _ st hdone
    show runCapture st (.failedEv :: post) = _
    simp only [runCapture, hdone, Bool.false_eq_true, if_false, handleFrame,
      Option.some_bind]
    exact runCaptureDone _ rfl post
  | cons e pre2 ih =>
    intro hpre st hdone
    have he : e = .otherEv := hpre e (by simp)
    rw [he, List.cons_append]
    simp only [runCapture, hdone, Bool.false_eq_true, if_false, handleFrame,
      Option.some_bind]
    exact ih (fun e2 he2 => hpre e2 (by simp [he2])) st hdone

/-- Claim C8 counterexample: a capture whose event sequence is a Buffer
event followed by Failed (the normal failure order: the compositor first
advertises buffer parameters, the copy is issued, then fails) leaves the
allocated file behind, so the failed output DOES contribute a frame: the
never-written zero-filled buffer converted to an opaque black image. -/
theorem c8_failed_capture_counterexample :
    runCapture initCaptureState [.bufferEv 1 1 1 4, .failedEv] =
      some ⟨true, some 4, WlShmFormat.xrgb8888, 1, 1, 4⟩ ∧
    captureOne [.bufferEv 1 1 1 4, .failedEv] (List.replicate 4 0) =
      some (some ⟨1, 1, [0, 0, 0, 255]⟩) :=
  ⟨by decide, by decide⟩

/-- Claim C8 as amended: a Failed event ends the wait without aborting
the run, and the failed output contributes no frame exactly when no
Buffer event preceded the failure; the capture loop then proceeds with
the remaining target outputs unchanged (the failure is only logged).
When a Buffer event did precede the failure, the stale zero-filled
buffer is processed as a frame. -/
theorem c8_failed_capture_amended (pre post : List CFrameEvent) (o : OutputInfo)
    (rest : List OutputInfo) (events : OutputInfo → List CFrameEvent)
    (content : OutputInfo → List Nat)
    (hpre : ∀ e ∈ pre, e = .otherEv)
    (hev : events o = pre ++ .failedEv :: post) :
    captureOne (events o) (content o) = some none ∧
    captureAll (o :: rest) events content = captureAll rest events content := by
  have hfirst : captureOne (events o) (content o) = some none := by
    unfold captureOne
    rw [hev, runCapturePreFailed post pre hpre initCaptureState rfl]
    rfl
  refine ⟨hfirst, ?_⟩
  conv_lhs => rw [captureAll]
  rw [hfirst]
  rcases captureAll rest events content with _ | cap <;> rfl

/-- Witness for the amended C8: an ignored event then Failed with no
Buffer event contributes nothing, and the one-output run equals the
empty run. -/
theorem c8_failed_capture_amended_witness :
    captureOne [CFrameEvent.otherEv, CFrameEvent.failedEv] [] = some none ∧
    captureAll [⟨0, 0, 1, 1, 1⟩] (fun _ => [CFrameEvent.otherEv, CFrameEvent.failedEv])
        (fun _ => []) =
      captureAll [] (fun _ => [CFrameEvent.otherEv, CFrameEvent.failedEv]) (fun _ => []) :=
  c8_failed_capture_amended [CFrameEvent.otherEv] [] ⟨0, 0, 1, 1, 1⟩ []
    (fun _ => [CFrameEvent.otherEv, CFrameEvent.failedEv]) (fun _ => [])
    (by decide) rfl

/-- Claim C9 counterexample: the screencopy manager advertised at
version 2 is bound at the constant 3, not min(2, 3) = 2. -/
theorem c9_bind_version_counterexample :
    boundVersion "zwlr_screencopy_manager_v1" 2 = some 3 ∧ 3 ≠ min 2 3 :=
  ⟨by decide, by decide⟩

/-- Claim C9 as amended: the xdg output manager and wl_output are bound
at min(advertised, level) with feature levels 3 and 4; wl_shm is bound
at the constant 1, which equals min(advertised, 1) because advertised
versions are at least 1; the screencopy manager is bound at the constant
3 regardless of the advertised version; unrecognized interfaces are not
bound. -/
theorem c9_bind_version_amended (v : Nat) (interface : String) :
    boundVersion "zxdg_output_manager_v1" v = some (min v 3) ∧
    boundVersion "wl_output" v = some (min v 4) ∧
    boundVersion "zwlr_screencopy_manager_v1" v = some 3 ∧
    (1 ≤ v → boundVersion "wl_shm" v = some (min v 1)) ∧
    (interface ∉ ["zwlr_screencopy_manager_v1", "zxdg_output_manager_v1", "wl_output",
      "wl_shm"] → boundVersion interface v = none) := by
  refine ⟨by simp [boundVersion], by simp [boundVersion], by simp [boundVersion], ?_, ?_⟩
  · intro hv
    have hm : min v 1 = 1 := min_eq_right hv
    simp [boundVersion, hm]
  · intro hni
    have h1 : interface ≠ "zwlr_screencopy_manager_v1" := fun he => hni (by simp [he])
    have h2 : interface ≠ "zxdg_output_manager_v1" := fun he => hni (by simp [he])
    have h3 : interface ≠ "wl_output" := fun he => hni (by simp [he])
    have h4 : interface ≠ "wl_shm" := fun he => hni (by simp [he])
    simp [boundVersion, h1, h2, h3, h4]

/-- Witness for the amended C9 at advertised version 5 and the
unrecognized interface wl_seat. -/
theorem c9_bind_version_amended_witness :
    boundVersion "zxdg_output_manager_v1" 5 = some (min 5 3) ∧
    boundVersion "wl_output" 5 = some (min 5 4) ∧
    boundVersion "wl_shm" 5 = some (min 5 1) ∧
    boundVersion "wl_seat" 5 = none :=
  ⟨(c9_bind_version_amended 5 "wl_seat").1,
   (c9_bind_version_amended 5 "wl_seat").2.1,
   (c9_bind_version_amended 5 "wl_seat").2.2.2.1 (by decide),
   (c9_bind_version_amended 5 "wl_seat").2.2.2.2 (by decide)⟩

/-- Witness for C5 at a single 4x4 scale-1 output with an overshooting
8-wide crop at offset 2 (clamped to 2) and a fully out-of-canvas crop at
offset 100 (clamped to zero area, so the save errors). -/
theorem c5_crop_clamp_witness :
    (cropRect 2 0 8 4 0 0 1 4 4).1 = ((2 - 0) * 1 : Int).toNat ∧
    (cropRect 2 0 8 4 0 0 1 4 4).2.2.1 = min (8 * (1 : Int).toNat) (4 - ((2 - 0) * 1 : Int).toNat) ∧
    (runSave (some (100, 100, 8, 4)) [⟨0, 0, 4, 4, 1⟩] [] = .error .pngZeroWidth ∨
      runSave (some (100, 100, 8, 4)) [⟨0, 0, 4, 4, 1⟩] [] = .error .pngZeroHeight) :=
  ⟨(c5_crop_clamp 2 0 8 4 0 0 1 4 4 (by decide) (by decide) (by decide) (by decide)
      (by decide) (by decide) (by decide) (by decide)).1,
   (c5_crop_clamp 2 0 8 4 0 0 1 4 4 (by decide) (by decide) (by decide) (by decide)
      (by decide) (by decide) (by decide) (by decide)).2.2.1,
   (c5_crop_clamp 100 100 8 4 0 0 1 4 4 (by decide) (by decide) (by decide) (by decide)
      (by decide) (by decide) (by decide) (by decide)).2.2.2.2.2.2 [⟨0, 0, 4, 4, 1⟩] []
      (by decide)⟩

